import Mathlib

/-!
Verification of the `proxyconn` package of creachadair/mhttp.

The Go source (`proxyconn/proxyconn.go`) implements a `Bridge` that acts both
as an HTTP handler and as a virtual `net.Listener`.  We embed:

* the pure target matcher `Bridge.hostMatchesTarget`;
* the request-dispatch logic of `Bridge.ServeHTTP`, `Bridge.delegateHTTP` and
  `Bridge.forwardConnect` as a pure function from a request plus oracles for
  the three effectful operations (hijack, push, dial) to a structured record
  of the observable effects (HTTP response, raw writes, closes, metric
  deltas);
* the channel/select behaviour of `Bridge.push`, `Bridge.Accept` and
  `Bridge.Close` as a labelled transition system `Step` over an explicit
  system state, encoding the Go runtime semantics of an unbuffered channel
  (`queue`) together with a close-once signal channel (`stopped`):
  a `select` with a ready case commits without parking, and `close(stopped)`
  atomically commits every select currently parked on `stopped` before the
  call to `close` returns.
-/

namespace Proxyconn

/-! ## Target matching (`Bridge.hostMatchesTarget`) -/

/-- `strings.Contains(s, ":")`: for the one-character pattern ":" this is
exactly whether some character of `s` is a colon. -/
def containsColon (s : String) : Bool :=
  s.data.any fun c => c == ':'

/-- Embeds `Bridge.hostMatchesTarget`: the loop over `b.Addrs` returning true
on `host == t`, or on `!strings.Contains(t, ":") && host == t+":443"`. -/
def hostMatchesTarget (Addrs : List String) (host : String) : Bool :=
  Addrs.any fun t => host == t || (!(containsColon t) && host == t ++ ":443")

/-- The matching rule in the spec's words: `H` equals a member of `T`, or some
member `m` of `T` contains no ":" separator and `H` equals `m ++ ":443"`. -/
def matchSpec (T : List String) (H : String) : Prop :=
  H ∈ T ∨ ∃ m ∈ T, containsColon m = false ∧ H = m ++ ":443"

/-! ## Request dispatch (`Bridge.ServeHTTP` and helpers) -/

/-- The fields of `url.URL` that `ServeHTTP` inspects on a CONNECT request. -/
structure URL where
  host : String
  path : String
  rawQuery : String
  fragment : String

/-- The fields of `http.Request` that the bridge reads. -/
structure Request where
  method : String
  url : URL
  proto : String

/-- The configuration fields of a `Bridge`.  `hasHandler` stands for
`b.Handler != nil`. -/
structure Bridge where
  Addrs : List String
  hasHandler : Bool
  ForwardConnect : Bool

/-- Oracles for the three effectful calls `ServeHTTP` may make; `some e`
models the call returning error `e`, `none` models success. -/
structure Effects where
  hijackErr : Option String
  pushErr : Option String
  dialErr : Option String

/-- Deltas of the eight `expvar.Int` counters of a `Bridge`, in declaration
order of the Go struct fields. -/
structure Metrics where
  httpProxyReject : Nat := 0
  httpProxyDelegate : Nat := 0
  fwdConnReject : Nat := 0
  fwdConnError : Nat := 0
  fwdConnSplice : Nat := 0
  proxyConnRequest : Nat := 0
  proxyConnError : Nat := 0
  proxyConnAccept : Nat := 0
deriving DecidableEq

/-- The observable effects of one `ServeHTTP` call.

`response` is the status and body written through `http.Error`;
`delegatedTo` records the request forwarded verbatim to `b.Handler`;
`rawWrites` are the strings written to the hijacked client connection;
`connClosed` says the bridge closed the hijacked client connection;
`pushAttempted`/`pushedOK` record that `b.push` was called / returned nil;
`remoteDialed`/`remoteClosed` track the `net.Dial`ed connection of
`forwardConnect`; `spliced` that the two splice goroutines were started. -/
structure ServeOutcome where
  response : Option (Nat × String) := none
  delegatedTo : Option Request := none
  hijacked : Bool := false
  rawWrites : List String := []
  connClosed : Bool := false
  pushAttempted : Bool := false
  pushedOK : Bool := false
  remoteDialed : Bool := false
  remoteClosed : Bool := false
  spliced : Bool := false
  metrics : Metrics := {}

/-- `http.StatusText` for the codes the bridge uses. -/
def statusText (code : Nat) : String :=
  if code = 200 then "OK"
  else if code = 400 then "Bad Request"
  else if code = 403 then "Forbidden"
  else if code = 404 then "Not Found"
  else if code = 500 then "Internal Server Error"
  else if code = 502 then "Bad Gateway"
  else if code = 503 then "Service Unavailable"
  else ""

/-- `http.Error(w, msg, code)` writes the body `msg ++ "\n"`. -/
def httpError (code : Nat) (msg : String) : Option (Nat × String) :=
  some (code, msg ++ "\n")

/-- One hexadecimal digit, lower case (Go's `lowerhex`). -/
def hexDigit (n : Nat) : Char :=
  if n < 10 then Char.ofNat (48 + n) else Char.ofNat (87 + n)

/-- `k` lowercase hexadecimal digits of `v`, most significant first, as Go's
`\x`, `\u` and `\U` escapes emit them. -/
def hexPad : Nat → Nat → String
  | 0, _ => ""
  | k + 1, v => hexPad k (v / 16) ++ String.singleton (hexDigit (v % 16))

/-- `strconv.IsPrint`, the printability test `%q` uses to decide between a
literal rune and an escape.  On ASCII it is exactly `0x20 ≤ c ≤ 0x7E`; on the
Latin-1 supplement (U+0080–U+00FF) it is exactly `0xA1 ≤ c ∧ c ≠ U+00AD`
(U+0080–U+009F are controls, U+00A0 is the no-break space, U+00AD the soft
hyphen — all non-printable).  Above U+00FF Go consults its compressed Unicode
category tables, which are not reproduced here: characters there are
approximated as printable, and every theorem below that concludes anything
about quoted output restricts the host to characters on which this
definition is exact. -/
def goIsPrint (c : Char) : Bool :=
  if c.toNat < 0x80 then decide (0x20 ≤ c.toNat) && decide (c.toNat ≤ 0x7E)
  else if c.toNat ≤ 0xFF then decide (0xA1 ≤ c.toNat) && decide (c.toNat ≠ 0xAD)
  else true

/-- Go's `%q` escaping of a single rune (`strconv.appendEscapedRune`): the
double quote and the backslash get a backslash escape; printable runes are
rendered literally; `\a \b \f \n \r \t \v` get their mnemonic escapes; the
remaining runes below 0x20 and the DEL byte get `\xNN`; every other
non-printable rune gets `\uNNNN` (or `\UNNNNNNNN` above U+FFFF).  Lean's
`Char` is always a valid Unicode scalar, so the `utf8.RuneError`
replacement branch of the Go code is unreachable in this model. -/
def goQuoteChar (c : Char) : String :=
  if c = '"' || c = '\\' then String.singleton '\\' ++ String.singleton c
  else if goIsPrint c then String.singleton c
  else if c.toNat = 0x07 then String.singleton '\\' ++ String.singleton 'a'
  else if c.toNat = 0x08 then String.singleton '\\' ++ String.singleton 'b'
  else if c.toNat = 0x0C then String.singleton '\\' ++ String.singleton 'f'
  else if c = '\n' then String.singleton '\\' ++ String.singleton 'n'
  else if c = '\r' then String.singleton '\\' ++ String.singleton 'r'
  else if c = '\t' then String.singleton '\\' ++ String.singleton 't'
  else if c.toNat = 0x0B then String.singleton '\\' ++ String.singleton 'v'
  else if c.toNat < 0x20 || c.toNat = 0x7F then
    String.singleton '\\' ++ String.singleton 'x' ++ hexPad 2 c.toNat
  else if c.toNat < 0x10000 then
    String.singleton '\\' ++ String.singleton 'u' ++ hexPad 4 c.toNat
  else
    String.singleton '\\' ++ String.singleton 'U' ++ hexPad 8 c.toNat

/-- Concatenation of the `%q` escapes of a list of characters. -/
def goQuoteAux : List Char → String
  | [] => ""
  | c :: cs => goQuoteChar c ++ goQuoteAux cs

/-- Go's `fmt` verb `%q` applied to a string: the character-wise escaping
wrapped in double quotes. -/
def goQuote (s : String) : String :=
  "\"" ++ goQuoteAux s.data ++ "\""

/-- Embeds `Bridge.delegateHTTP`: with no handler configured it counts an
`httpProxyReject` and responds 404; otherwise it counts an
`httpProxyDelegate` and passes the request to the handler unmodified. -/
def delegateHTTP (b : Bridge) (r : Request) : ServeOutcome :=
  if !b.hasHandler then
    { response := httpError 404 (statusText 404)
      metrics := { httpProxyReject := 1 } }
  else
    { delegatedTo := some r
      metrics := { httpProxyDelegate := 1 } }

/-- Embeds `Bridge.forwardConnect`: reject with 403 when forwarding is
disabled; otherwise dial the target (502 on failure), hijack the caller's
connection (500 on failure, leaving the dialed connection open), then write
the 200 line and splice.  No branch of the Go function closes the dialed
remote connection, so `remoteClosed` is false in every outcome. -/
def forwardConnect (b : Bridge) (r : Request) (eff : Effects) : ServeOutcome :=
  if !b.ForwardConnect then
    { response := httpError 403 ("target address " ++ goQuote r.url.host ++ " not recognized")
      metrics := { fwdConnReject := 1 } }
  else
    match eff.dialErr with
    | some e =>
      { response := httpError 502 e
        metrics := { fwdConnError := 1 } }
    | none =>
      match eff.hijackErr with
      | some e =>
        { response := httpError 500 e
          remoteDialed := true
          metrics := { fwdConnError := 1 } }
      | none =>
        { hijacked := true
          rawWrites := [r.proto ++ " 200 OK\r\n\r\n"]
          remoteDialed := true
          spliced := true
          metrics := { fwdConnSplice := 1 } }

/-- Embeds `Bridge.ServeHTTP`: non-CONNECT requests are delegated; a CONNECT
whose URL carries a path, query or fragment gets 400; an unmatched target
goes to `forwardConnect`; a matched target counts a `proxyConnRequest`, is
hijacked (500 on failure, counting a `proxyConnError`), and pushed — on push
failure the bridge writes the 503 line and closes the connection (counting a
`proxyConnError`), on success it writes the 200 line and counts a
`proxyConnAccept`. -/
def serveHTTP (b : Bridge) (r : Request) (eff : Effects) : ServeOutcome :=
  if r.method ≠ "CONNECT" then
    delegateHTTP b r
  else if r.url.rawQuery ≠ "" ∨ r.url.fragment ≠ "" ∨ r.url.path ≠ "" then
    { response := httpError 400 (statusText 400) }
  else if ¬ hostMatchesTarget b.Addrs r.url.host then
    forwardConnect b r eff
  else
    match eff.hijackErr with
    | some e =>
      { response := httpError 500 e
        metrics := { proxyConnRequest := 1, proxyConnError := 1 } }
    | none =>
      match eff.pushErr with
      | some _ =>
        { hijacked := true
          rawWrites := [r.proto ++ " 503 " ++ statusText 503 ++ "\r\n\r\n"]
          connClosed := true
          pushAttempted := true
          metrics := { proxyConnRequest := 1, proxyConnError := 1 } }
      | none =>
        { hijacked := true
          rawWrites := [r.proto ++ " 200 OK\r\n\r\n"]
          pushAttempted := true
          pushedOK := true
          metrics := { proxyConnRequest := 1, proxyConnAccept := 1 } }

/-! ## Channel semantics of `push`, `Accept` and `Close`

`b.queue` is an unbuffered `chan net.Conn` and `b.stopped` a `chan struct{}`
closed exactly once by `Close`.  `push` is a three-way `select` over
`ctx.Done()`, `<-b.stopped` and `b.queue <- conn`; `Accept` a two-way
`select` over `<-b.stopped` and `<-b.queue`.  The Go runtime facts the model
encodes:

* a `select` one of whose cases is ready (here: `stopped` already closed)
  completes in its polling pass and never parks on the channel queues, so
  after `close(stopped)` has returned, a newly started `push` or `Accept`
  can never rendezvous on `queue`;
* `close(stopped)` commits every select currently parked on `stopped`
  (dequeueing it from `queue`'s wait queues) before returning, so a producer
  or consumer parked before `Close` is resolved with its error by the time
  `Close` returns;
* a rendezvous on the unbuffered `queue` resolves exactly one parked
  producer with exactly one parked consumer.

Producers (callers of `push`) and consumers (callers of `Accept`) are
identified by natural numbers; a producer starting while the bridge is open
parks, and is later resolved by a rendezvous, by its context ending, or by
the bridge closing. -/

/-- Result of one `push` call: its connection was received by consumer `c`
(`push` returned nil), or the context ended (`ctx.Err()`), or the stopped
signal fired (`errors.New("connection unavailable")`). -/
inductive PushOutcome where
  | delivered (c : Nat)
  | ctxCanceled
  | closedErr
deriving DecidableEq

/-- Result of one `Accept` call: the connection of producer `p`, or
`net.ErrClosed`. -/
inductive AcceptOutcome where
  | gotConn (p : Nat)
  | errClosed
deriving DecidableEq

/-- Result of one `Close` call: nil, or `net.ErrClosed`. -/
inductive CloseResult where
  | ok
  | errClosed
deriving DecidableEq

/-- The state of a `Bridge`'s channels together with the status of every
`push`/`Accept` call made so far: `closed` is whether `stopped` was closed;
`parkedP`/`parkedC` the producers/consumers parked in their select;
`doneP`/`doneC` the outcomes of finished calls; `startedP`/`startedC` every
call ever started (used to give each call a fresh identifier). -/
structure BridgeSys where
  closed : Bool
  parkedP : List Nat
  parkedC : List Nat
  doneP : Nat → Option PushOutcome
  doneC : Nat → Option AcceptOutcome
  startedP : List Nat
  startedC : List Nat

/-- The bridge state right after `init`: open, nothing parked, nothing done. -/
def sys0 : BridgeSys :=
  { closed := false, parkedP := [], parkedC := [],
    doneP := fun _ => none, doneC := fun _ => none,
    startedP := [], startedC := [] }

/-- Point update of a producer-outcome map. -/
def updP (f : Nat → Option PushOutcome) (p : Nat) (o : PushOutcome) :
    Nat → Option PushOutcome :=
  fun q => if q = p then some o else f q

/-- Point update of a consumer-outcome map. -/
def updC (f : Nat → Option AcceptOutcome) (c : Nat) (o : AcceptOutcome) :
    Nat → Option AcceptOutcome :=
  fun d => if d = c then some o else f d

/-- The effect of `close(b.stopped)`: the closed flag is set and every select
parked on `stopped` is committed to its stopped case — parked producers
resolve to the closed error, parked consumers to `net.ErrClosed` — before
`Close` returns. -/
def doClose (s : BridgeSys) : BridgeSys :=
  { closed := true, parkedP := [], parkedC := [],
    doneP := fun p => if p ∈ s.parkedP then some .closedErr else s.doneP p,
    doneC := fun c => if c ∈ s.parkedC then some .errClosed else s.doneC c,
    startedP := s.startedP, startedC := s.startedC }

/-- Embeds `Bridge.Close`: the select over the already-closed `stopped`
returns `net.ErrClosed`; otherwise `stopped` is closed and nil returned. -/
def closeCall (s : BridgeSys) : BridgeSys × CloseResult :=
  if s.closed then (s, .errClosed) else (doClose s, .ok)

/-- Labels of system transitions. -/
inductive Label where
  | pushStart (p : Nat)
  | acceptStart (c : Nat)
  | rendezvous (p c : Nat)
  | ctxCancel (p : Nat)
  | closeBridge
  | closeAgain
deriving DecidableEq

/-- One transition of the bridge system.  `pushStartOpen`/`acceptStartOpen`
park a fresh call while the bridge is open (a call whose context is already
done, or that pairs immediately with a parked peer, is modelled as parking
and resolving in the next step); `pushStartClosed`/`acceptStartClosed` are
the selects that find `stopped` ready and commit without parking;
`rendezvousStep` is the handoff on the unbuffered `queue`; `cancelStep` is
`ctx.Done()` firing for a parked producer; `closeStep`/`closeAgainStep` are
the two branches of `Close`. -/
inductive Step : BridgeSys → Label → BridgeSys → Prop where
  | pushStartOpen (s : BridgeSys) (p : Nat) :
      s.closed = false → p ∉ s.startedP →
      Step s (.pushStart p)
        { s with parkedP := p :: s.parkedP, startedP := p :: s.startedP }
  | pushStartClosed (s : BridgeSys) (p : Nat) :
      s.closed = true → p ∉ s.startedP →
      Step s (.pushStart p)
        { s with doneP := updP s.doneP p .closedErr, startedP := p :: s.startedP }
  | acceptStartOpen (s : BridgeSys) (c : Nat) :
      s.closed = false → c ∉ s.startedC →
      Step s (.acceptStart c)
        { s with parkedC := c :: s.parkedC, startedC := c :: s.startedC }
  | acceptStartClosed (s : BridgeSys) (c : Nat) :
      s.closed = true → c ∉ s.startedC →
      Step s (.acceptStart c)
        { s with doneC := updC s.doneC c .errClosed, startedC := c :: s.startedC }
  | rendezvousStep (s : BridgeSys) (p c : Nat) :
      p ∈ s.parkedP → c ∈ s.parkedC →
      Step s (.rendezvous p c)
        { s with parkedP := s.parkedP.erase p, parkedC := s.parkedC.erase c,
                 doneP := updP s.doneP p (.delivered c),
                 doneC := updC s.doneC c (.gotConn p) }
  | cancelStep (s : BridgeSys) (p : Nat) :
      p ∈ s.parkedP →
      Step s (.ctxCancel p)
        { s with parkedP := s.parkedP.erase p,
                 doneP := updP s.doneP p .ctxCanceled }
  | closeStep (s : BridgeSys) :
      s.closed = false →
      Step s .closeBridge (doClose s)
  | closeAgainStep (s : BridgeSys) :
      s.closed = true →
      Step s .closeAgain s

/-- Execution over a list of labels. -/
inductive Reaches : BridgeSys → List Label → BridgeSys → Prop where
  | refl (s : BridgeSys) : Reaches s [] s
  | step {s s' s'' : BridgeSys} {l : Label} {ls : List Label} :
      Step s l s' → Reaches s' ls s'' → Reaches s (l :: ls) s''

/-- The state invariant maintained by every execution from `sys0`. -/
structure Inv (s : BridgeSys) : Prop where
  closedNoParked : s.closed = true → s.parkedP = [] ∧ s.parkedC = []
  parkedPFresh : ∀ p ∈ s.parkedP, s.doneP p = none
  parkedCFresh : ∀ c ∈ s.parkedC, s.doneC c = none
  freshPNone : ∀ p, p ∉ s.startedP → s.doneP p = none
  freshCNone : ∀ c, c ∉ s.startedC → s.doneC c = none
  parkedPStarted : ∀ p ∈ s.parkedP, p ∈ s.startedP
  parkedCStarted : ∀ c ∈ s.parkedC, c ∈ s.startedC
  nodupP : s.parkedP.Nodup
  nodupC : s.parkedC.Nodup
  matched : ∀ p c, s.doneP p = some (.delivered c) ↔ s.doneC c = some (.gotConn p)

theorem updP_self (f : Nat → Option PushOutcome) (p : Nat) (o : PushOutcome) :
    updP f p o p = some o := by
  simp [updP]

theorem updP_ne (f : Nat → Option PushOutcome) (p : Nat) (o : PushOutcome)
    {q : Nat} (h : q ≠ p) : updP f p o q = f q := by
  simp [updP, h]

theorem updC_self (f : Nat → Option AcceptOutcome) (c : Nat) (o : AcceptOutcome) :
    updC f c o c = some o := by
  simp [updC]

theorem updC_ne (f : Nat → Option AcceptOutcome) (c : Nat) (o : AcceptOutcome)
    {d : Nat} (h : d ≠ c) : updC f c o d = f d := by
  simp [updC, h]

/-- The invariant holds in the initial state. -/
theorem inv_sys0 : Inv sys0 := by
  constructor <;> simp [sys0]

/-- The invariant is preserved by every transition. -/
theorem inv_step {s s' : BridgeSys} {l : Label} (hI : Inv s) (hS : Step s l s') :
    Inv s' := by
  cases hS with
  | pushStartOpen p hc hp =>
    refine ⟨?_, ?_, ?_, ?_, ?_, ?_, ?_, ?_, ?_, ?_⟩ <;> dsimp only
    · intro h; rw [hc] at h; cases h
    · intro q hq
      rcases List.mem_cons.mp hq with h | h
      · exact h ▸ hI.freshPNone p hp
      · exact hI.parkedPFresh q h
    · exact hI.parkedCFresh
    · intro q hq
      simp only [List.mem_cons, not_or] at hq
      exact hI.freshPNone q hq.2
    · exact hI.freshCNone
    · intro q hq
      rcases List.mem_cons.mp hq with h | h
      · exact h ▸ List.mem_cons_self p s.startedP
      · exact List.mem_cons_of_mem p (hI.parkedPStarted q h)
    · exact hI.parkedCStarted
    · exact List.nodup_cons.mpr ⟨fun h => hp (hI.parkedPStarted p h), hI.nodupP⟩
    · exact hI.nodupC
    · exact hI.matched
  | pushStartClosed p hc hp =>
    refine ⟨?_, ?_, ?_, ?_, ?_, ?_, ?_, ?_, ?_, ?_⟩ <;> dsimp only
    · intro h; exact hI.closedNoParked h
    · intro q hq
      have hne : q ≠ p := fun h => hp (h ▸ hI.parkedPStarted q hq)
      rw [updP_ne _ _ _ hne]
      exact hI.parkedPFresh q hq
    · exact hI.parkedCFresh
    · intro q hq
      simp only [List.mem_cons, not_or] at hq
      rw [updP_ne _ _ _ hq.1]
      exact hI.freshPNone q hq.2
    · exact hI.freshCNone
    · intro q hq; exact List.mem_cons_of_mem p (hI.parkedPStarted q hq)
    · exact hI.parkedCStarted
    · exact hI.nodupP
    · exact hI.nodupC
    · intro q c
      by_cases hqp : q = p
      · subst hqp
        rw [updP_self]
        constructor
        · intro h; cases h
        · intro h
          have hm := (hI.matched q c).mpr h
          rw [hI.freshPNone q hp] at hm
          cases hm
      · rw [updP_ne _ _ _ hqp]; exact hI.matched q c
  | acceptStartOpen c hc hcn =>
    refine ⟨?_, ?_, ?_, ?_, ?_, ?_, ?_, ?_, ?_, ?_⟩ <;> dsimp only
    · intro h; rw [hc] at h; cases h
    · exact hI.parkedPFresh
    · intro d hd
      rcases List.mem_cons.mp hd with h | h
      · exact h ▸ hI.freshCNone c hcn
      · exact hI.parkedCFresh d h
    · exact hI.freshPNone
    · intro d hd
      simp only [List.mem_cons, not_or] at hd
      exact hI.freshCNone d hd.2
    · exact hI.parkedPStarted
    · intro d hd
      rcases List.mem_cons.mp hd with h | h
      · exact h ▸ List.mem_cons_self c s.startedC
      · exact List.mem_cons_of_mem c (hI.parkedCStarted d h)
    · exact hI.nodupP
    · exact List.nodup_cons.mpr ⟨fun h => hcn (hI.parkedCStarted c h), hI.nodupC⟩
    · exact hI.matched
  | acceptStartClosed c hc hcn =>
    refine ⟨?_, ?_, ?_, ?_, ?_, ?_, ?_, ?_, ?_, ?_⟩ <;> dsimp only
    · intro h; exact hI.closedNoParked h
    · exact hI.parkedPFresh
    · intro d hd
      have hne : d ≠ c := fun h => hcn (h ▸ hI.parkedCStarted d hd)
      rw [updC_ne _ _ _ hne]
      exact hI.parkedCFresh d hd
    · exact hI.freshPNone
    · intro d hd
      simp only [List.mem_cons, not_or] at hd
      rw [updC_ne _ _ _ hd.1]
      exact hI.freshCNone d hd.2
    · exact hI.parkedPStarted
    · intro d hd; exact List.mem_cons_of_mem c (hI.parkedCStarted d hd)
    · exact hI.nodupP
    · exact hI.nodupC
    · intro q d
      by_cases hdc : d = c
      · subst hdc
        rw [updC_self]
        constructor
        · intro h
          have hm := (hI.matched q d).mp h
          rw [hI.freshCNone d hcn] at hm
          cases hm
        · intro h; cases h
      · rw [updC_ne _ _ _ hdc]; exact hI.matched q d
  | rendezvousStep p c hp hc =>
    refine ⟨?_, ?_, ?_, ?_, ?_, ?_, ?_, ?_, ?_, ?_⟩ <;> dsimp only
    · intro h
      rw [(hI.closedNoParked h).1] at hp
      cases hp
    · intro q hq
      rcases (hI.nodupP.mem_erase_iff).mp hq with ⟨hqp, hqm⟩
      rw [updP_ne _ _ _ hqp]
      exact hI.parkedPFresh q hqm
    · intro d hd
      rcases (hI.nodupC.mem_erase_iff).mp hd with ⟨hdc, hdm⟩
      rw [updC_ne _ _ _ hdc]
      exact hI.parkedCFresh d hdm
    · intro q hq
      have hne : q ≠ p := fun h => hq (h ▸ hI.parkedPStarted p hp)
      rw [updP_ne _ _ _ hne]
      exact hI.freshPNone q hq
    · intro d hd
      have hne : d ≠ c := fun h => hd (h ▸ hI.parkedCStarted c hc)
      rw [updC_ne _ _ _ hne]
      exact hI.freshCNone d hd
    · intro q hq
      exact hI.parkedPStarted q (List.mem_of_mem_erase hq)
    · intro d hd
      exact hI.parkedCStarted d (List.mem_of_mem_erase hd)
    · exact hI.nodupP.erase p
    · exact hI.nodupC.erase c
    · intro q d
      by_cases hqp : q = p
      · subst hqp
        rw [updP_self]
        by_cases hdc : d = c
        · subst hdc
          rw [updC_self]
          simp
        · rw [updC_ne _ _ _ hdc]
          constructor
          · intro h
            exact absurd (Option.some.inj h) (fun he => hdc (PushOutcome.delivered.inj he).symm)
          · intro h
            have hm := (hI.matched q d).mpr h
            rw [hI.parkedPFresh q hp] at hm
            cases hm
      · rw [updP_ne _ _ _ hqp]
        by_cases hdc : d = c
        · subst hdc
          rw [updC_self]
          constructor
          · intro h
            have hm := (hI.matched q d).mp h
            rw [hI.parkedCFresh d hc] at hm
            cases hm
          · intro h
            exact absurd (Option.some.inj h) (fun he => hqp (AcceptOutcome.gotConn.inj he).symm)
        · rw [updC_ne _ _ _ hdc]
          exact hI.matched q d
  | cancelStep p hp =>
    refine ⟨?_, ?_, ?_, ?_, ?_, ?_, ?_, ?_, ?_, ?_⟩ <;> dsimp only
    · intro h
      rw [(hI.closedNoParked h).1] at hp
      cases hp
    · intro q hq
      rcases (hI.nodupP.mem_erase_iff).mp hq with ⟨hqp, hqm⟩
      rw [updP_ne _ _ _ hqp]
      exact hI.parkedPFresh q hqm
    · exact hI.parkedCFresh
    · intro q hq
      have hne : q ≠ p := fun h => hq (h ▸ hI.parkedPStarted p hp)
      rw [updP_ne _ _ _ hne]
      exact hI.freshPNone q hq
    · exact hI.freshCNone
    · intro q hq
      exact hI.parkedPStarted q (List.mem_of_mem_erase hq)
    · exact hI.parkedCStarted
    · exact hI.nodupP.erase p
    · exact hI.nodupC
    · intro q d
      by_cases hqp : q = p
      · subst hqp
        rw [updP_self]
        constructor
        · intro h; cases h
        · intro h
          have hm := (hI.matched q d).mpr h
          rw [hI.parkedPFresh q hp] at hm
          cases hm
      · rw [updP_ne _ _ _ hqp]
        exact hI.matched q d
  | closeStep hc =>
    refine ⟨?_, ?_, ?_, ?_, ?_, ?_, ?_, ?_, ?_, ?_⟩ <;> dsimp only [doClose]
    · intro _; exact ⟨rfl, rfl⟩
    · intro q hq; cases hq
    · intro d hd; cases hd
    · intro q hq
      have hqp : q ∉ s.parkedP := fun h => hq (hI.parkedPStarted q h)
      rw [if_neg hqp]
      exact hI.freshPNone q hq
    · intro d hd
      have hdc : d ∉ s.parkedC := fun h => hd (hI.parkedCStarted d h)
      rw [if_neg hdc]
      exact hI.freshCNone d hd
    · intro q hq; cases hq
    · intro d hd; cases hd
    · exact List.nodup_nil
    · exact List.nodup_nil
    · intro q d
      by_cases hq : q ∈ s.parkedP
      · rw [if_pos hq]
        by_cases hd : d ∈ s.parkedC
        · rw [if_pos hd]; constructor <;> (intro h; cases h)
        · rw [if_neg hd]
          constructor
          · intro h; cases h
          · intro h
            have hm := (hI.matched q d).mpr h
            rw [hI.parkedPFresh q hq] at hm
            cases hm
      · rw [if_neg hq]
        by_cases hd : d ∈ s.parkedC
        · rw [if_pos hd]
          constructor
          · intro h
            have hm := (hI.matched q d).mp h
            rw [hI.parkedCFresh d hd] at hm
            cases hm
          · intro h; cases h
        · rw [if_neg hd]
          exact hI.matched q d
  | closeAgainStep hc =>
    exact hI

/-- The invariant holds along every execution. -/
theorem inv_reaches {s s' : BridgeSys} {L : List Label}
    (hI : Inv s) (hR : Reaches s L s') : Inv s' := by
  induction hR with
  | refl s => exact hI
  | step hS _ ih => exact ih (inv_step hI hS)

/-- Executions compose. -/
theorem reaches_trans {s s' s'' : BridgeSys} {L L' : List Label}
    (h : Reaches s L s') (h' : Reaches s' L' s'') : Reaches s (L ++ L') s'' := by
  induction h with
  | refl s => exact h'
  | step hS _ ih => exact Reaches.step hS (ih h')

/-- In an invariant state, a producer's connection has been received by at
most one consumer. -/
theorem delivered_unique {s : BridgeSys} (hI : Inv s) {p c₁ c₂ : Nat}
    (h₁ : s.doneC c₁ = some (.gotConn p)) (h₂ : s.doneC c₂ = some (.gotConn p)) :
    c₁ = c₂ := by
  have e₁ := (hI.matched p c₁).mpr h₁
  have e₂ := (hI.matched p c₂).mpr h₂
  rw [e₁] at e₂
  exact (PushOutcome.delivered.inj (Option.some.inj e₂))

/-- The only transitions that resolve a pending `push` are: a rendezvous with
a consumer (returning nil), the request context ending, the stopped signal
firing at `Close`, or the select finding the stopped signal already fired
when `push` starts. -/
theorem push_resolution {s s' : BridgeSys} {l : Label} {p : Nat} {o : PushOutcome}
    (hS : Step s l s') (h0 : s.doneP p = none) (h1 : s'.doneP p = some o) :
    (∃ c, o = .delivered c ∧ l = .rendezvous p c)
    ∨ (o = .ctxCanceled ∧ l = .ctxCancel p)
    ∨ (o = .closedErr ∧ (l = .closeBridge ∨ (l = .pushStart p ∧ s.closed = true))) := by
  cases hS with
  | pushStartOpen q hc hq =>
    dsimp only at h1
    rw [h0] at h1
    cases h1
  | pushStartClosed q hc hq =>
    dsimp only at h1
    by_cases hpq : p = q
    · subst hpq
      rw [updP_self] at h1
      exact Or.inr (Or.inr ⟨(Option.some.inj h1).symm, Or.inr ⟨rfl, hc⟩⟩)
    · rw [updP_ne _ _ _ hpq, h0] at h1
      cases h1
  | acceptStartOpen c hc hcn =>
    dsimp only at h1
    rw [h0] at h1
    cases h1
  | acceptStartClosed c hc hcn =>
    dsimp only at h1
    rw [h0] at h1
    cases h1
  | rendezvousStep q c hq hc =>
    dsimp only at h1
    by_cases hpq : p = q
    · subst hpq
      rw [updP_self] at h1
      exact Or.inl ⟨c, (Option.some.inj h1).symm, rfl⟩
    · rw [updP_ne _ _ _ hpq, h0] at h1
      cases h1
  | cancelStep q hq =>
    dsimp only at h1
    by_cases hpq : p = q
    · subst hpq
      rw [updP_self] at h1
      exact Or.inr (Or.inl ⟨(Option.some.inj h1).symm, rfl⟩)
    · rw [updP_ne _ _ _ hpq, h0] at h1
      cases h1
  | closeStep hc =>
    dsimp only [doClose] at h1
    by_cases hp : p ∈ s.parkedP
    · rw [if_pos hp] at h1
      exact Or.inr (Or.inr ⟨(Option.some.inj h1).symm, Or.inl rfl⟩)
    · rw [if_neg hp, h0] at h1
      cases h1
  | closeAgainStep hc =>
    rw [h0] at h1
    cases h1

/-- A finished `Accept` outcome is never revised by a later transition. -/
theorem doneC_step_persist {s s' : BridgeSys} {l : Label} {c : Nat}
    {o : AcceptOutcome} (hI : Inv s) (hS : Step s l s')
    (h : s.doneC c = some o) : s'.doneC c = some o := by
  cases hS with
  | pushStartOpen p hc hp => exact h
  | pushStartClosed p hc hp => exact h
  | acceptStartOpen d hc hdn => exact h
  | acceptStartClosed d hc hdn =>
    dsimp only
    have hne : c ≠ d := by
      intro he
      rw [he, hI.freshCNone d hdn] at h
      cases h
    rw [updC_ne _ _ _ hne]
    exact h
  | rendezvousStep p d hp hd =>
    dsimp only
    have hne : c ≠ d := by
      intro he
      rw [he, hI.parkedCFresh d hd] at h
      cases h
    rw [updC_ne _ _ _ hne]
    exact h
  | cancelStep p hp => exact h
  | closeStep hc =>
    dsimp only [doClose]
    have hcp : c ∉ s.parkedC := by
      intro hm
      rw [hI.parkedCFresh c hm] at h
      cases h
    rw [if_neg hcp]
    exact h
  | closeAgainStep hc => exact h

/-- A finished `Accept` outcome persists along every later execution. -/
theorem doneC_reaches_persist {s s' : BridgeSys} {L : List Label} {c : Nat}
    {o : AcceptOutcome} (hI : Inv s) (hR : Reaches s L s')
    (h : s.doneC c = some o) : s'.doneC c = some o := by
  induction hR with
  | refl s => exact h
  | step hS _ ih => exact ih (inv_step hI hS) (doneC_step_persist hI hS h)

/-- Once the stopped signal has fired it stays fired. -/
theorem closed_step_persist {s s' : BridgeSys} {l : Label}
    (hS : Step s l s') (h : s.closed = true) : s'.closed = true := by
  cases hS with
  | pushStartOpen p hc hp => rw [hc] at h; cases h
  | pushStartClosed p hc hp => exact h
  | acceptStartOpen c hc hcn => rw [hc] at h; cases h
  | acceptStartClosed c hc hcn => exact h
  | rendezvousStep p c hp hc => exact h
  | cancelStep p hp => exact h
  | closeStep hc => rfl
  | closeAgainStep hc => exact h

/-! ## Helper lemmas shared by several claims -/

/-- Evaluation of `serveHTTP` on a matched, well-formed, successfully
hijacked CONNECT request: the outcome is decided by the result of `push`. -/
theorem serveHTTP_matched (b : Bridge) (r : Request) (eff : Effects)
    (hm : r.method = "CONNECT")
    (hp : r.url.path = "") (hq : r.url.rawQuery = "") (hf : r.url.fragment = "")
    (hmt : hostMatchesTarget b.Addrs r.url.host = true)
    (hh : eff.hijackErr = none) :
    serveHTTP b r eff =
      match eff.pushErr with
      | some _ =>
        { hijacked := true
          rawWrites := [r.proto ++ " 503 " ++ statusText 503 ++ "\r\n\r\n"]
          connClosed := true
          pushAttempted := true
          metrics := { proxyConnRequest := 1, proxyConnError := 1 } }
      | none =>
        { hijacked := true
          rawWrites := [r.proto ++ " 200 OK\r\n\r\n"]
          pushAttempted := true
          pushedOK := true
          metrics := { proxyConnRequest := 1, proxyConnAccept := 1 } } := by
  unfold serveHTTP
  rw [if_neg (by simp [hm]), if_neg (by simp [hq, hf, hp]),
      if_neg (by simp [hmt]), hh]

/-- The 503 status line assembled by `fmt.Fprintf` is the literal
`" 503 Service Unavailable\r\n\r\n"` appended to the protocol. -/
theorem line503_eq (p : String) :
    p ++ " 503 " ++ statusText 503 ++ "\r\n\r\n"
      = p ++ " 503 Service Unavailable\r\n\r\n" := by
  rw [String.append_assoc, String.append_assoc]
  congr 1

/-- Whether `pat` occurs as a contiguous run inside `l`: the list-level form
of Go's `strings.Contains`. -/
def substrIn (pat : List Char) : List Char → Bool
  | [] => pat.isEmpty
  | c :: rest => List.isPrefixOf pat (c :: rest) || substrIn pat rest

/-- `strings.Contains(s, pat)` for whole strings. -/
def strContainsSubstr (s pat : String) : Bool :=
  substrIn pat.data s.data

theorem substrIn_correct (pat l : List Char) :
    substrIn pat l = true ↔ pat <:+: l := by
  induction l with
  | nil =>
    simp [substrIn, List.isEmpty_iff]
  | cons c rest ih =>
    simp [substrIn, List.isPrefixOf_iff_prefix, ih, List.infix_cons_iff]

/-- Characters that Go's `%q` renders literally: printable ASCII other than
the double quote and the backslash. -/
def plainChar (c : Char) : Prop :=
  32 ≤ c.toNat ∧ c.toNat ≤ 126 ∧ c ≠ '"' ∧ c ≠ '\\'

instance (c : Char) : Decidable (plainChar c) := by
  unfold plainChar
  exact inferInstance

theorem goQuoteChar_plain {c : Char} (h : plainChar c) :
    goQuoteChar c = String.singleton c := by
  obtain ⟨h1, h2, h3, h4⟩ := h
  have hpr : goIsPrint c = true := by
    unfold goIsPrint
    rw [if_pos (by omega)]
    simp only [Bool.and_eq_true, decide_eq_true_eq]
    omega
  unfold goQuoteChar
  rw [if_neg (by simp [h3, h4]), if_pos hpr]

theorem goQuoteAux_plain (l : List Char) (h : ∀ c ∈ l, plainChar c) :
    goQuoteAux l = ⟨l⟩ := by
  induction l with
  | nil => rfl
  | cons c rest ih =>
    show goQuoteChar c ++ goQuoteAux rest = _
    rw [goQuoteChar_plain (h c (List.mem_cons_self c rest)),
        ih (fun d hd => h d (List.mem_cons_of_mem c hd))]
    rfl

/-- On hosts of plain characters, `%q` just wraps the host in quotes. -/
theorem goQuote_plain (s : String) (h : ∀ c ∈ s.data, plainChar c) :
    goQuote s = "\"" ++ s ++ "\"" := by
  unfold goQuote
  rw [goQuoteAux_plain s.data h]

/-! ## Claims -/

/-- C3: for all target lists `T` and host strings `H`, `hostMatchesTarget`
returns true iff `H` is string-equal to some member of `T`, or some member
`m` of `T` contains no ":" separator and `H` equals `m ++ ":443"`. -/
theorem C3_hostMatchesTarget_iff (T : List String) (H : String) :
    hostMatchesTarget T H = true ↔ matchSpec T H := by
  constructor
  · intro h
    rcases List.any_eq_true.mp h with ⟨t, htT, hcond⟩
    simp only [Bool.or_eq_true, Bool.and_eq_true, Bool.not_eq_true', beq_iff_eq] at hcond
    rcases hcond with h1 | ⟨hnc, heq⟩
    · exact Or.inl (by rw [h1]; exact htT)
    · exact Or.inr ⟨t, htT, hnc, heq⟩
  · intro h
    apply List.any_eq_true.mpr
    rcases h with hmem | ⟨m, hmT, hnc, heq⟩
    · exact ⟨H, hmem, by simp⟩
    · exact ⟨m, hmT, by simp [hnc, heq]⟩

/-- C6: a CONNECT request whose URL carries a non-empty path, query or
fragment is answered 400 with body "Bad Request" and terminates the request
with every one of the eight counters unchanged — in particular the matched
path is never reached and `proxyConnRequest` does not increment, whatever
the host and the configured address list. -/
theorem C6_connect_malformed_url (b : Bridge) (r : Request) (eff : Effects)
    (hm : r.method = "CONNECT")
    (hbad : r.url.path ≠ "" ∨ r.url.rawQuery ≠ "" ∨ r.url.fragment ≠ "") :
    serveHTTP b r eff = { response := some (400, "Bad Request\n") } := by
  have hcond : r.url.rawQuery ≠ "" ∨ r.url.fragment ≠ "" ∨ r.url.path ≠ "" := by
    tauto
  unfold serveHTTP
  rw [if_neg (by simp [hm]), if_pos hcond]
  rfl

/-- C6 witness: a CONNECT to a matched host carrying a path gets the bare 400
outcome. -/
theorem C6_connect_malformed_url_witness :
    serveHTTP ⟨["alpha"], true, false⟩ ⟨"CONNECT", ⟨"alpha:443", "/x", "", ""⟩, "HTTP/1.1"⟩
        ⟨none, none, none⟩ =
      { response := some (400, "Bad Request\n") } :=
  C6_connect_malformed_url _ _ _ rfl (Or.inl (by decide))

/-- C7: a request whose method is not CONNECT is never hijacked and never
reaches the queue: with a handler configured it is delegated unmodified and
`httpProxyDelegate` increments by one; with none it gets 404 and
`httpProxyReject` increments by one. -/
theorem C7_non_connect_delegated (b : Bridge) (r : Request) (eff : Effects)
    (hm : r.method ≠ "CONNECT") :
    (serveHTTP b r eff).hijacked = false ∧
    (serveHTTP b r eff).pushAttempted = false ∧
    (serveHTTP b r eff).pushedOK = false ∧
    (b.hasHandler = true →
      serveHTTP b r eff =
        { delegatedTo := some r, metrics := { httpProxyDelegate := 1 } }) ∧
    (b.hasHandler = false →
      serveHTTP b r eff =
        { response := some (404, "Not Found\n"), metrics := { httpProxyReject := 1 } }) := by
  have hserve : serveHTTP b r eff = delegateHTTP b r := by
    unfold serveHTTP
    rw [if_pos hm]
  rw [hserve]
  unfold delegateHTTP
  cases hh : b.hasHandler with
  | false =>
    refine ⟨rfl, rfl, rfl, ?_, ?_⟩
    · intro h; cases h
    · intro _; rfl
  | true =>
    refine ⟨rfl, rfl, rfl, ?_, ?_⟩
    · intro _; rfl
    · intro h; cases h

/-- C7 witness: a GET with no configured handler gets the 404 outcome. -/
theorem C7_non_connect_delegated_witness :
    (serveHTTP ⟨["alpha"], false, false⟩ ⟨"GET", ⟨"alpha:443", "/", "", ""⟩, "HTTP/1.1"⟩
        ⟨none, none, none⟩).hijacked = false :=
  (C7_non_connect_delegated _ _ _ (by decide)).1

/-- C4: a matched, well-formed, successfully hijacked CONNECT writes exactly
the line `proto ++ " 200 OK\r\n\r\n"` to the raw connection and counts a
`proxyConnAccept` when the handoff succeeds, and writes exactly
`proto ++ " 503 Service Unavailable\r\n\r\n"`, closes the connection and
counts a `proxyConnError` when the handoff fails. -/
theorem C4_matched_connect_lines (b : Bridge) (r : Request) (eff : Effects)
    (hm : r.method = "CONNECT")
    (hp : r.url.path = "") (hq : r.url.rawQuery = "") (hf : r.url.fragment = "")
    (hmt : hostMatchesTarget b.Addrs r.url.host = true)
    (hh : eff.hijackErr = none) :
    (eff.pushErr = none →
      serveHTTP b r eff =
        { hijacked := true, rawWrites := [r.proto ++ " 200 OK\r\n\r\n"],
          pushAttempted := true, pushedOK := true,
          metrics := { proxyConnRequest := 1, proxyConnAccept := 1 } }) ∧
    (eff.pushErr ≠ none →
      serveHTTP b r eff =
        { hijacked := true,
          rawWrites := [r.proto ++ " 503 Service Unavailable\r\n\r\n"],
          connClosed := true, pushAttempted := true,
          metrics := { proxyConnRequest := 1, proxyConnError := 1 } }) := by
  constructor
  · intro hpush
    rw [serveHTTP_matched b r eff hm hp hq hf hmt hh, hpush]
  · intro hpush
    rcases Option.ne_none_iff_exists'.mp hpush with ⟨e, he⟩
    rw [serveHTTP_matched b r eff hm hp hq hf hmt hh, he]
    rw [line503_eq]

/-- C4 witness: with a parked consumer (push succeeds) the 200 line is the
only raw write. -/
theorem C4_matched_connect_lines_witness :
    serveHTTP ⟨["alpha"], false, false⟩ ⟨"CONNECT", ⟨"alpha:443", "", "", ""⟩, "HTTP/1.1"⟩
        ⟨none, none, none⟩ =
      { hijacked := true, rawWrites := ["HTTP/1.1 200 OK\r\n\r\n"],
        pushAttempted := true, pushedOK := true,
        metrics := { proxyConnRequest := 1, proxyConnAccept := 1 } } :=
  (C4_matched_connect_lines _ _ _ rfl rfl rfl rfl (by decide) rfl).1 rfl

/-- C8 (amended): an unmatched well-formed CONNECT with forwarding disabled
gets a 403 whose only counter change is a single `fwdConnReject` increment,
whatever the host; when the host consists of printable ASCII characters
other than the double quote and the backslash — characters `%q` renders
literally — the 403 body is exactly
`target address "<host>" not recognized` and so contains the host verbatim
(for other hosts `%q` escaping can break literal containment, as the
counterexample shows); with forwarding enabled and a failing dial the
response is 502 and `fwdConnError` increments by exactly 1. -/
theorem C8_unmatched_connect (b : Bridge) (r : Request) (eff : Effects)
    (hm : r.method = "CONNECT")
    (hp : r.url.path = "") (hq : r.url.rawQuery = "") (hf : r.url.fragment = "")
    (hmt : hostMatchesTarget b.Addrs r.url.host = false) :
    (b.ForwardConnect = false →
      (∃ body, serveHTTP b r eff =
        { response := some (403, body), metrics := { fwdConnReject := 1 } }) ∧
      ((∀ c ∈ r.url.host.data, plainChar c) →
        serveHTTP b r eff =
          { response := some (403,
              "target address \"" ++ r.url.host ++ "\" not recognized\n"),
            metrics := { fwdConnReject := 1 } } ∧
        strContainsSubstr
          ("target address \"" ++ r.url.host ++ "\" not recognized\n")
          r.url.host = true)) ∧
    (b.ForwardConnect = true → ∀ e, eff.dialErr = some e →
      serveHTTP b r eff =
        { response := some (502, e ++ "\n"),
          metrics := { fwdConnError := 1 } }) := by
  have hserve : serveHTTP b r eff = forwardConnect b r eff := by
    unfold serveHTTP
    rw [if_neg (by simp [hm]), if_neg (by simp [hq, hf, hp]), if_pos (by simp [hmt])]
  have hreject : b.ForwardConnect = false →
      serveHTTP b r eff =
        { response := some (403,
            ("target address " ++ goQuote r.url.host ++ " not recognized") ++ "\n"),
          metrics := { fwdConnReject := 1 } } := by
    intro hfc
    rw [hserve]
    unfold forwardConnect
    rw [if_pos (by simp [hfc])]
    rfl
  constructor
  · intro hfc
    constructor
    · exact ⟨_, hreject hfc⟩
    · intro hplain
      have hbody : ("target address " ++ goQuote r.url.host ++ " not recognized") ++ "\n"
          = "target address \"" ++ r.url.host ++ "\" not recognized\n" := by
        rw [goQuote_plain _ hplain]
        apply String.ext
        simp only [String.data_append, List.append_assoc, List.cons_append,
          List.nil_append]
      refine ⟨?_, ?_⟩
      · rw [hreject hfc, hbody]
      · unfold strContainsSubstr
        apply (substrIn_correct _ _).mpr
        refine ⟨("target address \"" : String).data,
          ("\" not recognized\n" : String).data, ?_⟩
        simp only [String.data_append]
  · intro hfc e he
    rw [hserve]
    unfold forwardConnect
    rw [if_neg (by simp [hfc]), he]
    rfl

/-- C8 witness: the scenario from the spec — targets `alpha` and `beta:443`,
CONNECT to `gamma` with forwarding disabled gets 403 with a body naming
`gamma` and a lone `fwdConnReject` increment. -/
theorem C8_unmatched_connect_witness :
    serveHTTP ⟨["alpha", "beta:443"], false, false⟩
        ⟨"CONNECT", ⟨"gamma", "", "", ""⟩, "HTTP/1.1"⟩ ⟨none, none, none⟩ =
      { response := some (403, "target address \"gamma\" not recognized\n"),
        metrics := { fwdConnReject := 1 } } :=
  ((((C8_unmatched_connect _ _ _ rfl rfl rfl rfl (by decide)).1 rfl).2 (by decide)).1)

/-- C8 counterexample to the unrestricted claim: for the host `a\b` the `%q`
verb escapes the backslash, so the 403 body quotes the host as `"a\\b"` and
does not contain the raw host string. -/
theorem C8_unmatched_connect_counterexample :
    (serveHTTP ⟨["alpha"], false, false⟩
        ⟨"CONNECT", ⟨"a\\b", "", "", ""⟩, "HTTP/1.1"⟩ ⟨none, none, none⟩).response =
      some (403, "target address \"a\\\\b\" not recognized\n") ∧
    strContainsSubstr "target address \"a\\\\b\" not recognized\n" "a\\b" = false := by
  exact ⟨rfl, rfl⟩

/-- C9: in the forwarding path, when the dial succeeds and the hijack of the
client connection fails, the handler responds 500 and counts a
`fwdConnError`, but the dialed remote connection stays open (`remoteDialed`
true yet `remoteClosed` false): this error path never releases the remote
resource acquired before the failure. -/
theorem C9_forward_hijack_fail_leaks (b : Bridge) (r : Request) (eff : Effects)
    (hm : r.method = "CONNECT")
    (hp : r.url.path = "") (hq : r.url.rawQuery = "") (hf : r.url.fragment = "")
    (hmt : hostMatchesTarget b.Addrs r.url.host = false)
    (hfc : b.ForwardConnect = true) (hd : eff.dialErr = none)
    (e : String) (hh : eff.hijackErr = some e) :
    serveHTTP b r eff =
      { response := some (500, e ++ "\n"), remoteDialed := true,
        remoteClosed := false, metrics := { fwdConnError := 1 } } := by
  unfold serveHTTP
  rw [if_neg (by simp [hm]), if_neg (by simp [hq, hf, hp]), if_pos (by simp [hmt])]
  unfold forwardConnect
  rw [if_neg (by simp [hfc]), hd, hh]
  rfl

/-- C9 witness: a concrete unmatched CONNECT with forwarding on, a good dial
and a failing hijack yields the leaking 500 outcome. -/
theorem C9_forward_hijack_fail_leaks_witness :
    serveHTTP ⟨["alpha"], false, true⟩
        ⟨"CONNECT", ⟨"gamma:443", "", "", ""⟩, "HTTP/1.1"⟩
        ⟨some "hijack unsupported", none, none⟩ =
      { response := some (500, "hijack unsupported\n"), remoteDialed := true,
        remoteClosed := false, metrics := { fwdConnError := 1 } } :=
  C9_forward_hijack_fail_leaks _ _ _ rfl rfl rfl rfl (by decide) rfl rfl
    "hijack unsupported" rfl

/-- C5: on an open bridge the first sequential `Close` returns nil and fires
the stopped signal; a second `Close` returns `net.ErrClosed` and changes
nothing; and an `Accept` starting on the closed bridge resolves to
`net.ErrClosed`, never a connection. -/
theorem C5_close_once (s : BridgeSys) (h : s.closed = false) :
    (closeCall s).2 = .ok ∧
    (closeCall s).1.closed = true ∧
    closeCall (closeCall s).1 = ((closeCall s).1, .errClosed) ∧
    (∀ c s', Step (closeCall s).1 (.acceptStart c) s' →
      s'.doneC c = some .errClosed) := by
  have h1 : closeCall s = (doClose s, .ok) := by
    unfold closeCall
    rw [if_neg (by simp [h])]
  rw [h1]
  refine ⟨rfl, rfl, ?_, ?_⟩
  · dsimp only
    unfold closeCall
    rw [if_pos (show (doClose s).closed = true from rfl)]
  · intro c s' hS
    cases hS with
    | acceptStartOpen _ hco hcn => simp [doClose] at hco
    | acceptStartClosed _ hco hcn =>
      dsimp only
      exact updC_self _ _ _

/-- C5 witness: closing the fresh bridge returns nil and marks it closed. -/
theorem C5_close_once_witness :
    (closeCall sys0).2 = CloseResult.ok ∧ (closeCall sys0).1.closed = true :=
  ⟨(C5_close_once sys0 rfl).1, (C5_close_once sys0 rfl).2.1⟩

/-- C2: in every reachable state where the stopped signal has fired: no
producer is still blocked in `push` (a producer parked before the close was
resolved with an error by the close itself); a `push` starting later
resolves immediately to the closed error; an `Accept` starting later —
including one arriving after a producer had been blocked before the close —
resolves to `net.ErrClosed` and keeps that outcome along every continuation;
and no queue rendezvous can occur any more. -/
theorem C2_after_close (L : List Label) (s : BridgeSys)
    (hR : Reaches sys0 L s) (hc : s.closed = true) :
    s.parkedP = [] ∧
    (∀ p s', Step s (.pushStart p) s' → s'.doneP p = some .closedErr) ∧
    (∀ c s', Step s (.acceptStart c) s' →
      s'.doneC c = some .errClosed ∧
      ∀ L' s'', Reaches s' L' s'' → s''.doneC c = some .errClosed) ∧
    (∀ p c s', ¬ Step s (.rendezvous p c) s') := by
  have hI : Inv s := inv_reaches inv_sys0 hR
  refine ⟨(hI.closedNoParked hc).1, ?_, ?_, ?_⟩
  · intro p s' hS
    cases hS with
    | pushStartOpen _ hco hp => rw [hc] at hco; cases hco
    | pushStartClosed _ hco hp =>
      dsimp only
      exact updP_self _ _ _
  · intro c s' hS
    cases hS with
    | acceptStartOpen _ hco hcn => rw [hc] at hco; cases hco
    | acceptStartClosed _ hco hcn =>
      have hI' := inv_step hI (Step.acceptStartClosed s c hco hcn)
      refine ⟨updC_self _ _ _, ?_⟩
      intro L' s'' hR'
      exact doneC_reaches_persist hI' hR' (updC_self _ _ _)
  · intro p c s' hS
    cases hS with
    | rendezvousStep _ _ hpm hcm =>
      rw [(hI.closedNoParked hc).1] at hpm
      cases hpm

/-- C2 witness: right after closing the fresh bridge no producer is parked. -/
theorem C2_after_close_witness : (doClose sys0).parkedP = [] :=
  (C2_after_close [Label.closeBridge] (doClose sys0)
    (Reaches.step (Step.closeStep sys0 rfl) (Reaches.refl _)) rfl).1

/-- C1: a matched, hijacked CONNECT has exactly one of two outcomes — the
handoff succeeded and the 200 line is the only raw write with the connection
left open, or the handoff failed and the 503 line is the only raw write with
the connection closed; a connection is received by at most one `Accept`
caller; and a pending `push` resolves only through a queue rendezvous, its
request context ending, or the stopped signal firing. -/
theorem C1_matched_connect_exclusive :
    (∀ (b : Bridge) (r : Request) (eff : Effects),
      r.method = "CONNECT" → r.url.path = "" → r.url.rawQuery = "" →
      r.url.fragment = "" → hostMatchesTarget b.Addrs r.url.host = true →
      eff.hijackErr = none →
      ((serveHTTP b r eff).pushedOK = true ∧
        (serveHTTP b r eff).rawWrites = [r.proto ++ " 200 OK\r\n\r\n"] ∧
        (serveHTTP b r eff).connClosed = false) ∨
      ((serveHTTP b r eff).pushedOK = false ∧
        (serveHTTP b r eff).rawWrites = [r.proto ++ " 503 Service Unavailable\r\n\r\n"] ∧
        (serveHTTP b r eff).connClosed = true)) ∧
    (∀ (L : List Label) (s : BridgeSys) (p c₁ c₂ : Nat), Reaches sys0 L s →
      s.doneC c₁ = some (.gotConn p) → s.doneC c₂ = some (.gotConn p) → c₁ = c₂) ∧
    (∀ (s s' : BridgeSys) (l : Label) (p : Nat) (o : PushOutcome),
      Step s l s' → s.doneP p = none → s'.doneP p = some o →
      (∃ c, o = .delivered c ∧ l = .rendezvous p c) ∨
      (o = .ctxCanceled ∧ l = .ctxCancel p) ∨
      (o = .closedErr ∧ (l = .closeBridge ∨ (l = .pushStart p ∧ s.closed = true)))) := by
  refine ⟨?_, ?_, ?_⟩
  · intro b r eff hm hp hq hf hmt hh
    rcases heff : eff.pushErr with _ | e
    · left
      rw [serveHTTP_matched b r eff hm hp hq hf hmt hh, heff]
      exact ⟨rfl, rfl, rfl⟩
    · right
      rw [serveHTTP_matched b r eff hm hp hq hf hmt hh, heff]
      refine ⟨rfl, ?_, rfl⟩
      dsimp only
      rw [line503_eq]
  · intro L s p c₁ c₂ hR h₁ h₂
    exact delivered_unique (inv_reaches inv_sys0 hR) h₁ h₂
  · intro s s' l p o hS h0 h1
    exact push_resolution hS h0 h1

/-- C1 witness: a concrete matched CONNECT with a successful handoff lands
in the first of the two outcomes. -/
theorem C1_matched_connect_exclusive_witness :
    ((serveHTTP ⟨["alpha"], false, false⟩
        ⟨"CONNECT", ⟨"alpha", "", "", ""⟩, "HTTP/1.1"⟩ ⟨none, none, none⟩).pushedOK = true ∧
      (serveHTTP ⟨["alpha"], false, false⟩
        ⟨"CONNECT", ⟨"alpha", "", "", ""⟩, "HTTP/1.1"⟩ ⟨none, none, none⟩).rawWrites
        = ["HTTP/1.1 200 OK\r\n\r\n"] ∧
      (serveHTTP ⟨["alpha"], false, false⟩
        ⟨"CONNECT", ⟨"alpha", "", "", ""⟩, "HTTP/1.1"⟩ ⟨none, none, none⟩).connClosed = false) ∨
    ((serveHTTP ⟨["alpha"], false, false⟩
        ⟨"CONNECT", ⟨"alpha", "", "", ""⟩, "HTTP/1.1"⟩ ⟨none, none, none⟩).pushedOK = false ∧
      (serveHTTP ⟨["alpha"], false, false⟩
        ⟨"CONNECT", ⟨"alpha", "", "", ""⟩, "HTTP/1.1"⟩ ⟨none, none, none⟩).rawWrites
        = ["HTTP/1.1 503 Service Unavailable\r\n\r\n"] ∧
      (serveHTTP ⟨["alpha"], false, false⟩
        ⟨"CONNECT", ⟨"alpha", "", "", ""⟩, "HTTP/1.1"⟩ ⟨none, none, none⟩).connClosed = true) :=
  C1_matched_connect_exclusive.1 _ _ _ rfl rfl rfl rfl (by decide) rfl

/-- Along an execution containing no `pushStart` event, no producer is ever
parked and every finished `Accept` resolved to `net.ErrClosed`. -/
theorem no_push_no_delivery {s : BridgeSys} {L : List Label} {s' : BridgeSys}
    (hR : Reaches s L s') :
    (∀ p, Label.pushStart p ∉ L) → s.parkedP = [] →
    (∀ c o, s.doneC c = some o → o = .errClosed) →
    s'.parkedP = [] ∧ (∀ c o, s'.doneC c = some o → o = .errClosed) := by
  induction hR with
  | refl s =>
    intro _ hp0 hd0
    exact ⟨hp0, hd0⟩
  | step hS hR' ih =>
    intro hnp hp0 hd0
    have hnp' : ∀ p, Label.pushStart p ∉ _ :=
      fun p h => hnp p (List.mem_cons_of_mem _ h)
    cases hS with
    | pushStartOpen p hc hp =>
      exact absurd (List.mem_cons_self (Label.pushStart p) _) (hnp p)
    | pushStartClosed p hc hp =>
      exact absurd (List.mem_cons_self (Label.pushStart p) _) (hnp p)
    | acceptStartOpen c hc hcn =>
      exact ih hnp' hp0 hd0
    | acceptStartClosed c hc hcn =>
      refine ih hnp' hp0 ?_
      intro d o hdo
      dsimp only at hdo
      by_cases hdc : d = c
      · subst hdc
        rw [updC_self] at hdo
        exact (Option.some.inj hdo).symm
      · rw [updC_ne _ _ _ hdc] at hdo
        exact hd0 d o hdo
    | rendezvousStep p c hpm hcm =>
      rw [hp0] at hpm
      cases hpm
    | cancelStep p hpm =>
      rw [hp0] at hpm
      cases hpm
    | closeStep hc =>
      refine ih hnp' rfl ?_
      intro d o hdo
      dsimp only [doClose] at hdo
      split at hdo
      · exact (Option.some.inj hdo).symm
      · exact hd0 d o hdo
    | closeAgainStep hc =>
      exact ih hnp' hp0 hd0

/-- C10: with an empty address list no host ever matches, every well-formed
CONNECT takes the forward-or-reject path, `push` is never attempted, and —
since no producer ever starts — `Accept` can only ever resolve to
`net.ErrClosed`, never to a connection. -/
theorem C10_empty_addrs :
    (∀ h, hostMatchesTarget [] h = false) ∧
    (∀ (b : Bridge) (r : Request) (eff : Effects), b.Addrs = [] →
      (serveHTTP b r eff).pushAttempted = false ∧
      (serveHTTP b r eff).pushedOK = false) ∧
    (∀ (b : Bridge) (r : Request) (eff : Effects), b.Addrs = [] →
      r.method = "CONNECT" → r.url.path = "" → r.url.rawQuery = "" →
      r.url.fragment = "" → serveHTTP b r eff = forwardConnect b r eff) ∧
    (∀ (L : List Label) (s : BridgeSys), Reaches sys0 L s →
      (∀ p, Label.pushStart p ∉ L) →
      ∀ c o, s.doneC c = some o → o = AcceptOutcome.errClosed) := by
  refine ⟨fun h => rfl, ?_, ?_, ?_⟩
  · intro b r eff hA
    have hmt : hostMatchesTarget b.Addrs r.url.host = false := by rw [hA]; rfl
    unfold serveHTTP
    split
    · unfold delegateHTTP
      split
      · exact ⟨rfl, rfl⟩
      · exact ⟨rfl, rfl⟩
    · split
      · exact ⟨rfl, rfl⟩
      · split
        · unfold forwardConnect
          split
          · exact ⟨rfl, rfl⟩
          · split
            · exact ⟨rfl, rfl⟩
            · split
              · exact ⟨rfl, rfl⟩
              · exact ⟨rfl, rfl⟩
        · rename_i hcond
          rw [hmt] at hcond
          simp at hcond
  · intro b r eff hA hm hp hq hf
    unfold serveHTTP
    rw [if_neg (by simp [hm]), if_neg (by simp [hq, hf, hp]),
        if_pos (by rw [hA]; simp [hostMatchesTarget])]
  · intro L s hR hnp c o h
    exact (no_push_no_delivery hR hnp rfl (fun c o h => by simp [sys0] at h)).2 c o h

/-- C10 witness: a well-formed CONNECT against an empty address list never
attempts a push. -/
theorem C10_empty_addrs_witness :
    (serveHTTP ⟨[], false, false⟩ ⟨"CONNECT", ⟨"x:443", "", "", ""⟩, "HTTP/1.1"⟩
        ⟨none, none, none⟩).pushAttempted = false :=
  (C10_empty_addrs.2.1 _ _ _ rfl).1

end Proxyconn
